import Mathlib

/-
Verification of the SmartCharging EV charge controller
(apps/ev_charge_control/ev_charge_control.py) against its natural-language
specification.  Times are modelled as absolute integer seconds, prices as
rationals, and the appdaemon entity reads as explicit inputs.
-/

set_option linter.unusedVariables false

/-- Constant MAX_TIME_FOR_WORKER_TO_SLEEP (line 62): one hour, in seconds. -/
def MAX_TIME_FOR_WORKER_TO_SLEEP : Int := 3600

/-- Constant RETRY_AFTER_FAILURE (line 63): one minute, in seconds. -/
def RETRY_AFTER_FAILURE : Int := 60

/-- Raw price point as delivered by a price source entity: a start and an end
instant (absolute seconds) and an optional price (`none` models a null
value). -/
structure RawPoint where
  start : Int
  end_ : Int
  value : Option ℚ
deriving DecidableEq, Repr

/-- One entry of the `price_data` configuration list: the points currently
reported by the entity, and its `required` flag. -/
structure PriceSource where
  required : Bool
  points : List RawPoint
deriving DecidableEq, Repr

/-- Normalized priced interval, the dictionary built by `get_price`
(lines 767-777). -/
structure FuturePrice where
  start : Int
  end_ : Int
  start_from_midnight : Int
  end_from_midnight : Int
  length : Int
  seconds_until_start : Int
  price : ℚ
deriving DecidableEq, Repr

/-- Deadline adjustment at the top of `get_price` (lines 673-681): read the
configured deadline as seconds since midnight and add 24h once the time of
day has already passed. -/
def mustBeDoneBy (finish_at_latest_by : Option Int) (now midnight_today : Int) :
    Option Int :=
  match finish_at_latest_by with
  | none => none
  | some d => if now - midnight_today > d then some (d + 24 * 3600) else some d

/-- Merge loop of `get_price` (lines 690-707): concatenate all sources'
points; a required source with an empty list is skipped and marks
`missing_price_info`, a required source containing a null-valued point marks
`missing_price_info` but is still concatenated. -/
def mergePriceData (price_data : List PriceSource) : List RawPoint × Bool :=
  price_data.foldl
    (fun acc pd =>
      if pd.required then
        if pd.points.isEmpty then (acc.1, true)
        else (acc.1 ++ pd.points, acc.2 || pd.points.any (fun p => p.value.isNone))
      else (acc.1 ++ pd.points, acc.2))
    ([], false)

/-- Ordering of raw points by start time, the sort key of line 710. -/
def rawStartLe (a b : RawPoint) : Prop := a.start ≤ b.start

instance : DecidableRel rawStartLe := fun a b => Int.decLe a.start b.start

/-- Main loop of `get_price` (lines 712-777) over the start-sorted points:
skip null values and points already ended, clear `missing_price_info` when a
retained point spans the deadline, stop at the first point starting at or
after the deadline, clip or shrink the usable length, and collect the
normalized intervals.  Returns the collected list together with the final
`missing_price_info` flag. -/
def buildPrices (now midnight_today : Int) (must_be_done_by : Option Int) :
    List RawPoint → Bool → List FuturePrice × Bool
  | [], missing => ([], missing)
  | p :: rest, missing =>
    match p.value with
    | none => buildPrices now midnight_today must_be_done_by rest missing
    | some v =>
      if p.end_ - now < 0 then
        buildPrices now midnight_today must_be_done_by rest missing
      else
        let start_from_midnight_today := p.start - midnight_today
        let end_from_midnight_today := p.end_ - midnight_today
        let missing1 : Bool :=
          missing && !(match must_be_done_by with
            | some m => decide (start_from_midnight_today < m ∧ m ≤ end_from_midnight_today)
            | none => false)
        let seconds_until_start := p.start - now
        let breakNow : Bool :=
          match must_be_done_by with
          | some m => decide (start_from_midnight_today ≥ m)
          | none => false
        if breakNow then
          ([], missing1)
        else
          let usable_length : Int :=
            match must_be_done_by with
            | some m =>
              if end_from_midnight_today > m then m - start_from_midnight_today
              else if seconds_until_start < 0 then (p.end_ - p.start) + seconds_until_start
              else p.end_ - p.start
            | none =>
              if seconds_until_start < 0 then (p.end_ - p.start) + seconds_until_start
              else p.end_ - p.start
          let fp : FuturePrice :=
            ⟨p.start, p.end_, start_from_midnight_today, end_from_midnight_today,
              usable_length, seconds_until_start, v⟩
          let restOut := buildPrices now midnight_today must_be_done_by rest missing1
          (fp :: restOut.1, restOut.2)

/-- Whole body of `get_price` once `price_data` is known to be configured:
the produced list together with the final `missing_price_info` flag. -/
def getPriceAux (now midnight_today : Int) (finish_at_latest_by : Option Int)
    (price_data : List PriceSource) : List FuturePrice × Bool :=
  let must_be_done_by := mustBeDoneBy finish_at_latest_by now midnight_today
  let merged := mergePriceData price_data
  let prices := List.insertionSort rawStartLe merged.1
  buildPrices now midnight_today must_be_done_by prices merged.2

/-- Function `get_price` (lines 663-782).  It returns `none` only when no
`price_data` configuration exists (line 664-665); otherwise it returns the
normalized list.  As in the source, the final `missing_price_info` flag is
only logged (lines 779-780) and has no effect on the returned value. -/
def get_price (has_price_data : Bool) (now midnight_today : Int)
    (finish_at_latest_by : Option Int) (price_data : List PriceSource) :
    Option (List FuturePrice) :=
  if ¬has_price_data then none
  else some (getPriceAux now midnight_today finish_at_latest_by price_data).1

/-- Ordering of normalized intervals by price, the sort key of line 537. -/
def priceLe (a b : FuturePrice) : Prop := a.price ≤ b.price

instance : DecidableRel priceLe := fun a b => inferInstanceAs (Decidable (a.price ≤ b.price))

/-- Ordering of normalized intervals by start time, the sort key of line 562. -/
def startLe (a b : FuturePrice) : Prop := a.start ≤ b.start

instance : DecidableRel startLe := fun a b => Int.decLe a.start b.start

/-- Greedy accumulation loop of `start_stop_charging` (lines 542-549): walk
the price-sorted list, appending every interval and summing its usable
length, and stop right after the running sum first exceeds
`charge_time_needed`. -/
def selectSlotsGo (charge_time_needed : Int) : List FuturePrice → Int → List FuturePrice
  | [], _ => []
  | p :: rest, len0 =>
    let len1 := len0 + p.length
    p :: (if len1 > charge_time_needed then []
          else selectSlotsGo charge_time_needed rest len1)

/-- Slot selection of `start_stop_charging` (lines 537-549): sort by
ascending price (stable) and run the greedy accumulation loop. -/
def selectSlots (charge_time_needed : Int) (price : List FuturePrice) : List FuturePrice :=
  selectSlotsGo charge_time_needed (List.insertionSort priceLe price) 0

/-- Sum of the usable lengths of a list of slots, matching the running
`length` variable of the greedy loop. -/
def sumLength : List FuturePrice → Int
  | [] => 0
  | p :: rest => p.length + sumLength rest

/-- Python's `str.lower()` (line 415 applies it to the charging-state
reading; `initialize` applies it to the configured literals), as a
structural map over the characters. -/
def strToLower (s : String) : String := ⟨s.data.map Char.toLower⟩

/-- Python's `int(...)` truncation applied at line 431 to `tl * 3600`; it is
only evaluated under the guard `tl > 0`, where truncation toward zero and
floor agree. -/
def pyInt (q : ℚ) : Int := q.num / q.den

/-- Charger command sent through `start_charging` / `stop_charging`. -/
inductive Cmd where
  | on : Cmd
  | off : Cmd
deriving DecidableEq, Repr

/-- Configuration literals, already lowercased as in `initialize`
(lines 132-140), plus the presence tag (lines 102, 154-156). -/
structure Config where
  status_charging : String
  status_complete : String
  status_stopped : String
  home_tag : String
deriving DecidableEq, Repr

/-- External inputs of one `calculate` evaluation: the entity reads, the
already-normalized result of `get_price` (deterministic in those reads), the
current instant, and whether the charger on/off service calls succeed. -/
structure CalcIn where
  active : String
  device_tracker : Option String
  charging_state : Option String
  cs_lc : Int
  tl_lc : Int
  tl : ℚ
  price : Option (List FuturePrice)
  now : Int
  start_ok : Bool
  stop_ok : Bool
deriving DecidableEq, Repr

/-- Mutable session state read and written by `calculate` and
`start_stop_charging`: `self.status_state`, `self.charge_time_needed` and
the `reason` status attribute. -/
structure SessionState where
  status_state : String
  charge_time_needed : Option Int
  reason : String
deriving DecidableEq, Repr

/-- Outcome of one evaluation: normal completion with the updated state, the
charger commands attempted (in order) and the returned boolean, or an
uncaught exception (`price[0]` on an empty list, line 536) with the state as
mutated so far. -/
inductive CalcResult where
  | ok (st : SessionState) (cmds : List Cmd) (ret : Bool)
  | crash (st : SessionState) (cmds : List Cmd)
deriving DecidableEq, Repr

/-- State carried by the result (on a crash, the mutations made before the
raise persist on the object). -/
def CalcResult.stateOf : CalcResult → SessionState
  | .ok st _ _ => st
  | .crash st _ => st

/-- Charger commands attempted during the evaluation. -/
def CalcResult.cmdsOf : CalcResult → List Cmd
  | .ok _ c _ => c
  | .crash _ c => c

/-- Status after the evaluation. -/
def CalcResult.statusOf (r : CalcResult) : String := r.stateOf.status_state

/-- Value of `charge_time_needed` after the evaluation. -/
def CalcResult.ctnOf (r : CalcResult) : Option Int := r.stateOf.charge_time_needed

/-- Function `start_stop_charging` (lines 491-618).  With
`charge_time_needed` unknown it probes by switching the charger on; with no
price information it stops; otherwise it selects the cheapest slots and
switches the charger on exactly when `now` lies strictly inside the earliest
selected slot.  `price[0]` on an empty normalized list raises (line 536). -/
def start_stop_charging (I : CalcIn) (st : SessionState) : CalcResult :=
  match st.charge_time_needed with
  | none =>
    if ¬I.start_ok then
      .ok { st with
              status_state := "error",
              reason := "Unable to communicate with EV" } [Cmd.on] false
    else
      .ok { st with
              status_state := "calculating",
              reason := "Asking EV for time left" } [Cmd.on] true
  | some need =>
    match I.price with
    | none =>
      if ¬I.stop_ok then
        .ok { st with
                status_state := "error",
                reason := "Unable to communicate with EV" } [Cmd.off] false
      else
        .ok { st with
                status_state := "stopped",
                reason := "Missing price info" } [Cmd.off] true
    | some price =>
      match price with
      | [] => .crash st []
      | current_slot :: _ =>
        let slots := selectSlots need price
        if slots.isEmpty then
          .ok { st with
                  status_state := "no slots",
                  reason := "No slots needed" } [Cmd.on] I.start_ok
        else
          match List.insertionSort startLe slots with
          | [] => .crash st []
          | slot :: _ =>
            if slot.start < I.now ∧ I.now < slot.end_ then
              .ok { st with
                      status_state := "charging",
                      reason := "Price now " ++ toString current_slot.price } [Cmd.on] true
            else
              .ok { st with
                      status_state := "stopped",
                      reason := "Price now " ++ toString current_slot.price } [Cmd.off] true

/-- Function `calculate` (lines 369-457): the charge state machine.  The
branches are evaluated in source order; the charging-state comparison is
against the lowercased reading (line 415). -/
def calculate (cfg : Config) (I : CalcIn) (st : SessionState) : CalcResult :=
  if I.active = "off" then
    .ok { status_state := "disabled", charge_time_needed := none,
          reason := "Disabled by user" }
      (if st.status_state = "stopped" then [Cmd.on] else []) true
  else if I.device_tracker ≠ some cfg.home_tag then
    .ok { status_state := "inactive", charge_time_needed := none,
          reason := "EV is not home" } [] true
  else
    match I.charging_state with
    | none =>
      .ok { status_state := "error", charge_time_needed := none,
            reason := "Error reading charging_state" } [] true
    | some cs0 =>
      let cs := strToLower cs0
      if cs = cfg.status_charging then
        let ctn : Option Int :=
          if I.tl > 0 ∧ I.cs_lc - I.tl_lc < 0 then some (pyInt (I.tl * 3600)) else none
        start_stop_charging I { st with charge_time_needed := ctn }
      else if cs = cfg.status_complete then
        .ok { status_state := "complete", charge_time_needed := none,
              reason := "EV is charged" } [Cmd.on] true
      else if cs = cfg.status_stopped ∧ st.status_state = "calculating" then
        .ok { st with charge_time_needed := none } [Cmd.on] true
      else
        start_stop_charging I st

/-- Outcome of the `self.calculate()` call at line 340: the returned boolean
or an exception caught by the surrounding try (lines 338-343). -/
inductive RunOutcome where
  | ok (ret : Bool) : RunOutcome
  | exn : RunOutcome
deriving DecidableEq, Repr

/-- Inputs of one `worker` activation: the outcome of `calculate`, the
outcome of the `self.get_price()` call at line 350 (which can itself raise,
e.g. while parsing raw date strings, and is outside the try), and the
instant stored at line 347. -/
structure WorkerEnv where
  calc_outcome : RunOutcome
  price_outcome : Except Unit (Option (List FuturePrice))
  now : Int

/-- Function `worker` (lines 335-367): compute the sleep time and schedule
the next activation.  The result is the delay passed to `schedule_worker`,
or `none` when an exception escaped before `schedule_worker` (line 363) was
reached, in which case no next activation is scheduled. -/
def workerRun (E : WorkerEnv) : Option Int :=
  let retry : Bool :=
    match E.calc_outcome with
    | .ok ret => !ret
    | .exn => true
  match E.price_outcome with
  | .error _ => none
  | .ok price =>
    let sleep_time : Int :=
      match price with
      | some (p :: _) =>
        let s := p.end_ - E.now
        if s > MAX_TIME_FOR_WORKER_TO_SLEEP then MAX_TIME_FOR_WORKER_TO_SLEEP else s
      | some [] => MAX_TIME_FOR_WORKER_TO_SLEEP
      | none => MAX_TIME_FOR_WORKER_TO_SLEEP
    some (if retry = true ∧ sleep_time > RETRY_AFTER_FAILURE
          then RETRY_AFTER_FAILURE else sleep_time)

/-- C6: in `get_price`, whenever a deadline is configured and its
seconds-since-midnight value is less than the seconds-since-midnight of the
current instant, the effective deadline offset used by the subsequent
filtering and clipping equals the literal value plus 24*3600 seconds;
otherwise it equals the literal value unchanged. -/
theorem c6_deadline_rollover (d now midnight_today : Int)
    (fal : Option Int) (pd : List PriceSource) :
    (d < now - midnight_today →
      mustBeDoneBy (some d) now midnight_today = some (d + 24 * 3600)) ∧
    (now - midnight_today ≤ d →
      mustBeDoneBy (some d) now midnight_today = some d) ∧
    getPriceAux now midnight_today fal pd =
      buildPrices now midnight_today (mustBeDoneBy fal now midnight_today)
        (List.insertionSort rawStartLe (mergePriceData pd).1) (mergePriceData pd).2 := by
  refine ⟨fun h => ?_, fun h => ?_, rfl⟩
  · show (if now - midnight_today > d then some (d + 24 * 3600) else some d) = _
    rw [if_pos (by omega)]
  · show (if now - midnight_today > d then some (d + 24 * 3600) else some d) = _
    rw [if_neg (by omega)]

theorem c6_deadline_rollover_witness :
    mustBeDoneBy (some 27000) 30000 0 = some (27000 + 24 * 3600) ∧
    mustBeDoneBy (some 27000) 20000 0 = some 27000 :=
  ⟨(c6_deadline_rollover 27000 30000 0 none []).1 (by decide),
   ((c6_deadline_rollover 27000 20000 0 none []).2).1 (by decide)⟩

/-- C1 (code bug): with `price_data` configured, a single required source
reporting an empty list, and no deadline to excuse it, the final
`missing_price_info` flag is set, yet `get_price` still returns a sequence
(here `some []`) instead of `none`: the flag is only logged at lines
779-780 and never turned into a `None` return. -/
theorem c1_missing_required_price_not_none :
    (getPriceAux 0 0 none [⟨true, []⟩]).2 = true ∧
    get_price true 0 0 none [⟨true, []⟩] = some [] ∧
    get_price true 0 0 none [⟨true, []⟩] ≠ none := by decide

/-- Helper: the greedy accumulation loop either pushes the running sum
strictly beyond the requirement or consumes its whole input list. -/
theorem selectSlotsGo_gt_or_all (need : Int) :
    ∀ (l : List FuturePrice) (acc : Int),
      acc + sumLength (selectSlotsGo need l acc) > need ∨
        selectSlotsGo need l acc = l
  | [], acc => Or.inr rfl
  | p :: rest, acc => by
    simp only [selectSlotsGo]
    by_cases h : acc + p.length > need
    · left
      rw [if_pos h]
      simp only [sumLength]
      omega
    · rcases selectSlotsGo_gt_or_all need rest (acc + p.length) with h2 | h2
      · left
        rw [if_neg h]
        simp only [sumLength]
        omega
      · right
        rw [if_neg h, h2]

/-- Helper: the greedy selection is empty exactly when the normalized price
list is empty. -/
theorem selectSlots_eq_nil_iff (need : Int) (price : List FuturePrice) :
    selectSlots need price = [] ↔ price = [] := by
  unfold selectSlots
  constructor
  · intro h
    cases hs : List.insertionSort priceLe price with
    | nil =>
      have hl := List.length_insertionSort priceLe price
      rw [hs] at hl
      exact List.length_eq_zero.mp hl.symm
    | cons x xs =>
      rw [hs] at h
      simp [selectSlotsGo] at h
  · intro h
    subst h
    rfl

/-- C3 (counterexample): one priced interval of usable length 100 with
`charge_time_needed = 3600`: the greedy loop selects that interval, so the
selected set is non-empty, yet its summed usable length does not exceed the
requirement. -/
theorem c3_counterexample :
    ¬(sumLength (selectSlots 3600 [⟨0, 100, 0, 100, 100, 0, 1⟩]) > 3600 ∨
      selectSlots 3600 [⟨0, 100, 0, 100, 100, 0, 1⟩] = []) := by decide

/-- C3 (amended): the summed usable length of the selected slots strictly
exceeds `charge_time_needed`, or the selection consumed the entire
price-sorted list (so the available intervals could not cover the
requirement); the selected set is empty exactly when the price list is
empty. -/
theorem c3_selected_slots_cover_or_exhaust (need : Int) (price : List FuturePrice) :
    (sumLength (selectSlots need price) > need ∨
      selectSlots need price = List.insertionSort priceLe price) ∧
    (selectSlots need price = [] ↔ price = []) := by
  refine ⟨?_, selectSlots_eq_nil_iff need price⟩
  have h := selectSlotsGo_gt_or_all need (List.insertionSort priceLe price) 0
  unfold selectSlots
  rcases h with h | h
  · left
    omega
  · right
    exact h

/-- C4 (counterexample): an activation in which `calculate` succeeds but the
`get_price` recomputation at line 350 raises never reaches
`schedule_worker`, so no next activation is scheduled. -/
theorem c4_counterexample :
    workerRun ⟨RunOutcome.ok true, Except.error (), 0⟩ = none := by decide

/-- C4 (amended): every activation whose post-run price recomputation
returns normally schedules exactly one next activation, even when
`calculate` raised or returned False (those are caught by the try at lines
338-343); only an exception escaping from the `get_price` call at line 350,
which sits outside the try, skips the rescheduling. -/
theorem c4_schedules_next_activation (E : WorkerEnv)
    (pr : Option (List FuturePrice)) (h : E.price_outcome = Except.ok pr) :
    ∃ t, workerRun E = some t := by
  obtain ⟨co, po, now0⟩ := E
  simp only at h
  subst h
  exact ⟨_, rfl⟩

theorem c4_schedules_next_activation_witness :
    ∃ t, workerRun ⟨RunOutcome.exn, Except.ok none, 0⟩ = some t :=
  c4_schedules_next_activation ⟨RunOutcome.exn, Except.ok none, 0⟩ none rfl

/-- C8: with the enable flag off, `calculate` ends with status "disabled"
and clears `charge_time_needed`, and it attempts a charging-ON command
during the evaluation if and only if the status at the start of the
evaluation was "stopped". -/
theorem c8_disabled_state (cfg : Config) (I : CalcIn) (st : SessionState)
    (h : I.active = "off") :
    (calculate cfg I st).statusOf = "disabled" ∧
    (calculate cfg I st).ctnOf = none ∧
    ((calculate cfg I st).cmdsOf = [Cmd.on] ↔ st.status_state = "stopped") := by
  unfold calculate
  rw [if_pos h]
  by_cases hs : st.status_state = "stopped" <;>
    simp [hs, CalcResult.statusOf, CalcResult.ctnOf, CalcResult.cmdsOf,
      CalcResult.stateOf]

theorem c8_disabled_state_witness :
    (calculate ⟨"charging", "complete", "stopped", "home"⟩
        ⟨"off", some "home", some "idle", 0, 0, 0, none, 0, true, true⟩
        ⟨"stopped", some 100, ""⟩).statusOf = "disabled" ∧
    (calculate ⟨"charging", "complete", "stopped", "home"⟩
        ⟨"off", some "home", some "idle", 0, 0, 0, none, 0, true, true⟩
        ⟨"stopped", some 100, ""⟩).ctnOf = none ∧
    ((calculate ⟨"charging", "complete", "stopped", "home"⟩
        ⟨"off", some "home", some "idle", 0, 0, 0, none, 0, true, true⟩
        ⟨"stopped", some 100, ""⟩).cmdsOf = [Cmd.on] ↔
      ("stopped" : String) = "stopped") :=
  c8_disabled_state _ _ _ rfl

/-- Outcome data of `start_stop_charging` as a function of the inputs and of
`charge_time_needed` alone: the new status, reason, attempted commands and
returned boolean, or `none` when the evaluation raises at `price[0]`
(line 536).  The status/reason/command outputs never depend on the incoming
`status_state`. -/
def ssOut (I : CalcIn) (ctn : Option Int) :
    Option (String × String × List Cmd × Bool) :=
  match ctn with
  | none =>
    if ¬I.start_ok then some ("error", "Unable to communicate with EV", [Cmd.on], false)
    else some ("calculating", "Asking EV for time left", [Cmd.on], true)
  | some need =>
    match I.price with
    | none =>
      if ¬I.stop_ok then some ("error", "Unable to communicate with EV", [Cmd.off], false)
      else some ("stopped", "Missing price info", [Cmd.off], true)
    | some price =>
      match price with
      | [] => none
      | current_slot :: _ =>
        let slots := selectSlots need price
        if slots.isEmpty then
          some ("no slots", "No slots needed", [Cmd.on], I.start_ok)
        else
          match List.insertionSort startLe slots with
          | [] => none
          | slot :: _ =>
            if slot.start < I.now ∧ I.now < slot.end_ then
              some ("charging", "Price now " ++ toString current_slot.price, [Cmd.on], true)
            else
              some ("stopped", "Price now " ++ toString current_slot.price, [Cmd.off], true)

/-- Helper: `start_stop_charging` rewritten through `ssOut`; the outgoing
state keeps the incoming `charge_time_needed`, and a crash keeps the whole
incoming state. -/
theorem start_stop_charging_eq (I : CalcIn) (st : SessionState) :
    start_stop_charging I st =
      match ssOut I st.charge_time_needed with
      | some (s, rs, c, b) => CalcResult.ok ⟨s, st.charge_time_needed, rs⟩ c b
      | none => CalcResult.crash st [] := by
  obtain ⟨ss, ctn, rsn⟩ := st
  cases ctn with
  | none =>
    by_cases h : I.start_ok <;>
      simp [start_stop_charging, ssOut, h]
  | some need =>
    cases hp : I.price with
    | none =>
      by_cases h : I.stop_ok <;>
        simp [start_stop_charging, ssOut, hp, h]
    | some price =>
      cases price with
      | nil => simp [start_stop_charging, ssOut, hp]
      | cons c0 rest =>
        simp only [start_stop_charging, ssOut, hp]
        by_cases hemp : (selectSlots need (c0 :: rest)).isEmpty
        · simp [hemp]
        · simp only [hemp, Bool.false_eq_true, if_false]
          cases hsort : List.insertionSort startLe (selectSlots need (c0 :: rest)) with
          | nil => simp
          | cons s0 srest =>
            by_cases hin : s0.start < I.now ∧ I.now < s0.end_ <;> simp [hin]

/-- Helper: `start_stop_charging` never modifies `charge_time_needed`. -/
theorem start_stop_charging_ctn (I : CalcIn) (st : SessionState) :
    (start_stop_charging I st).ctnOf = st.charge_time_needed := by
  rw [start_stop_charging_eq]
  cases h : ssOut I st.charge_time_needed with
  | none => rfl
  | some q =>
    obtain ⟨s, rs, c, b⟩ := q
    rfl

/-- C2 (counterexample): state signal "Charging" matches the charging
literal, the remaining-time reading is 2 hours (positive) and its
last-changed timestamp (100) is not newer than the charging-state's
last-changed timestamp (100), so the claim demands
`charge_time_needed = 2*3600 = 7200` (and its Scenario E reading demands
retaining the previous value 999); the code instead requires the reading to
be strictly newer and sets `charge_time_needed` to unknown (`None`). -/
theorem c2_counterexample :
    (0 : ℚ) < 2 ∧ (100 : Int) ≤ 100 ∧
    (calculate ⟨"charging", "complete", "stopped", "home"⟩
        ⟨"on", some "home", some "Charging", 100, 100, 2, some [], 0, true, true⟩
        ⟨"unknown", some 999, ""⟩).ctnOf ≠ some 7200 ∧
    (calculate ⟨"charging", "complete", "stopped", "home"⟩
        ⟨"on", some "home", some "Charging", 100, 100, 2, some [], 0, true, true⟩
        ⟨"unknown", some 999, ""⟩).ctnOf ≠ some 999 := by decide

/-- C2 (amended): when the (lowercased) charging-state reading equals the
configured charging literal, the evaluation sets `charge_time_needed` to
`int(tl * 3600)` exactly when the remaining-time reading is positive and its
last-changed timestamp is strictly newer than the charging-state's
last-changed timestamp; in every other case — including a stale reading —
it is set to unknown (`None`), not retained. -/
theorem c2_charging_updates_need (cfg : Config) (I : CalcIn) (st : SessionState)
    (cs0 : String)
    (ha : ¬I.active = "off")
    (ht : I.device_tracker = some cfg.home_tag)
    (hcs : I.charging_state = some cs0)
    (hch : strToLower cs0 = cfg.status_charging) :
    (calculate cfg I st).ctnOf =
      if 0 < I.tl ∧ I.cs_lc < I.tl_lc then some (pyInt (I.tl * 3600)) else none := by
  have hcond : (I.tl > 0 ∧ I.cs_lc - I.tl_lc < 0) ↔ (0 < I.tl ∧ I.cs_lc < I.tl_lc) := by
    constructor <;> (rintro ⟨x, y⟩; exact ⟨x, by omega⟩)
  simp only [calculate, hcs]
  rw [if_neg ha, if_neg (by simp [ht])]
  rw [if_pos hch, start_stop_charging_ctn]
  simp only [hcond]

theorem c2_charging_updates_need_witness :
    (calculate ⟨"charging", "complete", "stopped", "home"⟩
        ⟨"on", some "home", some "charging", 100, 0, 2, some [], 0, true, true⟩
        ⟨"unknown", some 999, ""⟩).ctnOf =
      if (0 : ℚ) < 2 ∧ (100 : Int) < 0 then some (pyInt ((2 : ℚ) * 3600)) else none :=
  c2_charging_updates_need ⟨"charging", "complete", "stopped", "home"⟩
    ⟨"on", some "home", some "charging", 100, 0, 2, some [], 0, true, true⟩
    ⟨"unknown", some 999, ""⟩ "charging" (by decide) rfl rfl (by decide)

/-- Helper: every interval retained by the main `get_price` loop (with a
deadline in force) starts strictly before the deadline offset, because the
loop stops at the first point whose start offset reaches it. -/
theorem buildPrices_start_lt (now mid m : Int) :
    ∀ (l : List RawPoint) (ms : Bool) (fp : FuturePrice),
      fp ∈ (buildPrices now mid (some m) l ms).1 → fp.start_from_midnight < m
  | [], ms, fp => by
    simp [buildPrices]
  | p :: rest, ms, fp => by
    intro hmem
    simp only [buildPrices] at hmem
    cases hv : p.value with
    | none =>
      rw [hv] at hmem
      exact buildPrices_start_lt now mid m rest ms fp hmem
    | some v =>
      rw [hv] at hmem
      dsimp only at hmem
      by_cases h1 : p.end_ - now < 0
      · rw [if_pos h1] at hmem
        exact buildPrices_start_lt now mid m rest ms fp hmem
      · rw [if_neg h1] at hmem
        by_cases h2 : p.start - mid ≥ m
        · rw [if_pos (by simp [h2])] at hmem
          simp at hmem
        · rw [if_neg (by simp [h2])] at hmem
          rcases List.mem_cons.mp hmem with h3 | h3
          · rw [h3]
            simpa using by omega
          · exact buildPrices_start_lt now mid m rest _ fp h3

/-- C7: every interval in a sequence returned by `get_price` with a deadline
configured starts strictly before the (possibly +24h-adjusted) deadline
offset; no returned interval starts at or after the deadline. -/
theorem c7_returned_intervals_before_deadline
    (hp : Bool) (now mid d : Int) (pd : List PriceSource)
    (l : List FuturePrice) (m : Int)
    (hm : mustBeDoneBy (some d) now mid = some m)
    (hl : get_price hp now mid (some d) pd = some l) :
    ∀ fp, fp ∈ l → fp.start_from_midnight < m := by
  intro fp hfp
  cases hp with
  | false => simp [get_price] at hl
  | true =>
    simp only [get_price, Bool.not_true] at hl
    rw [if_neg (by simp)] at hl
    rw [Option.some.injEq] at hl
    rw [← hl] at hfp
    unfold getPriceAux at hfp
    rw [hm] at hfp
    exact buildPrices_start_lt now mid m _ _ fp hfp

theorem c7_returned_intervals_before_deadline_witness :
    (⟨2, 5, 2, 5, 3, 2, 1⟩ : FuturePrice).start_from_midnight < 10 :=
  c7_returned_intervals_before_deadline true 0 0 10
    [⟨false, [⟨2, 5, some 1⟩]⟩] [⟨2, 5, 2, 5, 3, 2, 1⟩] 10
    (by decide) (by decide) ⟨2, 5, 2, 5, 3, 2, 1⟩ (by decide)

/-- C10: when `charge_time_needed` is known and the normalized price list is
non-empty, the greedy loop selects at least one slot, and the evaluation
cannot end in the "no slots" status; that status is reachable only with an
empty normalized price list. -/
theorem c10_no_slots_needs_empty_list (I : CalcIn) (st : SessionState)
    (need : Int) (l : List FuturePrice)
    (hc : st.charge_time_needed = some need)
    (hpr : I.price = some l) (hne : l ≠ []) :
    selectSlots need l ≠ [] ∧
    (start_stop_charging I st).statusOf ≠ "no slots" := by
  have hsel : selectSlots need l ≠ [] :=
    fun h => hne ((selectSlots_eq_nil_iff need l).mp h)
  refine ⟨hsel, ?_⟩
  rw [start_stop_charging_eq, hc]
  cases l with
  | nil => exact absurd rfl hne
  | cons c0 rest =>
    simp only [ssOut, hpr]
    rw [if_neg (by simpa using hsel)]
    cases hsort : List.insertionSort startLe (selectSlots need (c0 :: rest)) with
    | nil =>
      exfalso
      apply hsel
      have hlen := List.length_insertionSort startLe (selectSlots need (c0 :: rest))
      rw [hsort] at hlen
      exact List.length_eq_zero.mp hlen.symm
    | cons s0 srest =>
      by_cases hin : s0.start < I.now ∧ I.now < s0.end_ <;>
        simp [hin, CalcResult.statusOf, CalcResult.stateOf]

theorem c10_no_slots_needs_empty_list_witness :
    selectSlots 50 [⟨0, 100, 0, 100, 100, 0, 1⟩] ≠ [] ∧
    (start_stop_charging
        ⟨"on", some "home", some "x", 0, 0, 0, some [⟨0, 100, 0, 100, 100, 0, 1⟩],
          50, true, true⟩
        ⟨"s", some 50, ""⟩).statusOf ≠ "no slots" :=
  c10_no_slots_needs_empty_list
    ⟨"on", some "home", some "x", 0, 0, 0, some [⟨0, 100, 0, 100, 100, 0, 1⟩],
      50, true, true⟩
    ⟨"s", some 50, ""⟩ 50 [⟨0, 100, 0, 100, 100, 0, 1⟩] rfl rfl (by decide)

instance : IsTotal RawPoint rawStartLe :=
  ⟨fun a b => Int.le_total a.start b.start⟩

instance : IsTrans RawPoint rawStartLe :=
  ⟨fun a b c h1 h2 => le_trans h1 h2⟩

/-- Helper: the start instants of the intervals produced by the main
`get_price` loop form a sublist of the start instants of its input points
(the loop only drops points and keeps order). -/
theorem buildPrices_start_sublist (now mid : Int) (mb : Option Int) :
    ∀ (l : List RawPoint) (ms : Bool),
      ((buildPrices now mid mb l ms).1.map FuturePrice.start).Sublist
        (l.map RawPoint.start)
  | [], ms => by simp [buildPrices]
  | p :: rest, ms => by
    simp only [buildPrices]
    cases hv : p.value with
    | none =>
      dsimp only
      exact (buildPrices_start_sublist now mid mb rest ms).cons p.start
    | some v =>
      dsimp only
      by_cases h1 : p.end_ - now < 0
      · rw [if_pos h1]
        exact (buildPrices_start_sublist now mid mb rest ms).cons p.start
      · rw [if_neg h1]
        by_cases hbk : (match mb with
            | some m => decide (p.start - mid ≥ m)
            | none => false) = true
        · rw [if_pos hbk]
          exact List.nil_sublist _
        · rw [if_neg hbk]
          exact (buildPrices_start_sublist now mid mb rest _).cons₂ p.start

/-- Helper: the sequence produced by `get_price` is ascending in start
time, so its head is the chronologically first priced interval. -/
theorem getPriceAux_sorted (now mid : Int) (fal : Option Int)
    (pd : List PriceSource) :
    ((getPriceAux now mid fal pd).1).Sorted startLe := by
  have hs : (List.insertionSort rawStartLe (mergePriceData pd).1).Sorted rawStartLe :=
    List.sorted_insertionSort rawStartLe _
  have hmap :
      ((List.insertionSort rawStartLe (mergePriceData pd).1).map
        RawPoint.start).Pairwise (· ≤ ·) :=
    List.pairwise_map.mpr hs
  have hsub :
      (((getPriceAux now mid fal pd).1).map FuturePrice.start).Sublist
        ((List.insertionSort rawStartLe (mergePriceData pd).1).map RawPoint.start) :=
    buildPrices_start_sublist now mid (mustBeDoneBy fal now mid)
      (List.insertionSort rawStartLe (mergePriceData pd).1) (mergePriceData pd).2
  exact (@List.pairwise_map FuturePrice Int FuturePrice.start (fun a b => a ≤ b)
    ((getPriceAux now mid fal pd).1)).mp (List.Pairwise.sublist hsub hmap)

/-- C5: after a successful run the scheduled sleep equals the seconds until
the end of the chronologically first normalized interval capped at
MAX_TIME_FOR_WORKER_TO_SLEEP = 3600 (and equals 3600 when no interval is
available); after a failed run (exception or `calculate` returning False)
the same value is additionally capped at RETRY_AFTER_FAILURE = 60; and the
`get_price` sequence is ascending in start, so its head is the
chronologically first interval. -/
theorem c5_worker_sleep (co : RunOutcome) (pr : Option (List FuturePrice))
    (now0 nowp midp : Int) (fal : Option Int) (pd : List PriceSource) :
    (workerRun ⟨RunOutcome.ok true, Except.ok pr, now0⟩ =
      some (match pr with
        | some (p :: _) => min (p.end_ - now0) MAX_TIME_FOR_WORKER_TO_SLEEP
        | some [] => MAX_TIME_FOR_WORKER_TO_SLEEP
        | none => MAX_TIME_FOR_WORKER_TO_SLEEP)) ∧
    ((co = RunOutcome.exn ∨ co = RunOutcome.ok false) →
      workerRun ⟨co, Except.ok pr, now0⟩ =
        (workerRun ⟨RunOutcome.ok true, Except.ok pr, now0⟩).map
          (fun s => min s RETRY_AFTER_FAILURE)) ∧
    (∀ l, get_price true nowp midp fal pd = some l → l.Sorted startLe) := by
  refine ⟨?_, fun h => ?_, fun l hl => ?_⟩
  · cases pr with
    | none =>
      simp [workerRun, MAX_TIME_FOR_WORKER_TO_SLEEP, RETRY_AFTER_FAILURE]
    | some l =>
      cases l with
      | nil => simp [workerRun, MAX_TIME_FOR_WORKER_TO_SLEEP, RETRY_AFTER_FAILURE]
      | cons p rest =>
        simp only [workerRun, MAX_TIME_FOR_WORKER_TO_SLEEP, RETRY_AFTER_FAILURE,
          Option.some.injEq, min_def, Bool.not_true, Bool.false_eq_true, false_and,
          if_false]
        split_ifs <;> omega
  · rcases h with h | h <;> subst h <;>
      cases pr with
      | none =>
        simp [workerRun, MAX_TIME_FOR_WORKER_TO_SLEEP, RETRY_AFTER_FAILURE]
      | some l =>
        cases l with
        | nil => simp [workerRun, MAX_TIME_FOR_WORKER_TO_SLEEP, RETRY_AFTER_FAILURE]
        | cons p rest =>
          simp [workerRun, MAX_TIME_FOR_WORKER_TO_SLEEP, RETRY_AFTER_FAILURE, min_def]
          split_ifs <;> omega
  · simp only [get_price, Bool.not_true] at hl
    rw [if_neg (by simp)] at hl
    rw [Option.some.injEq] at hl
    rw [← hl]
    exact getPriceAux_sorted nowp midp fal pd

theorem c5_worker_sleep_witness :
    workerRun ⟨RunOutcome.exn,
        Except.ok (some [⟨0, 5000, 0, 5000, 5000, 0, 1⟩]), 0⟩ =
      (workerRun ⟨RunOutcome.ok true,
          Except.ok (some [⟨0, 5000, 0, 5000, 5000, 0, 1⟩]), 0⟩).map
        (fun s => min s RETRY_AFTER_FAILURE) ∧
    List.Sorted startLe ([] : List FuturePrice) :=
  ⟨(c5_worker_sleep RunOutcome.exn (some [⟨0, 5000, 0, 5000, 5000, 0, 1⟩])
      0 0 0 none []).2.1 (Or.inl rfl),
   (c5_worker_sleep RunOutcome.exn (some [⟨0, 5000, 0, 5000, 5000, 0, 1⟩])
      0 0 0 none []).2.2 [] (by decide)⟩

/-- Helper: the charging branch of `calculate` (lines 429-433) computes the
new `charge_time_needed` from the inputs alone and delegates to
`start_stop_charging`. -/
theorem calculate_charging_branch (cfg : Config) (I : CalcIn) (st : SessionState)
    (cs0 : String) (v : Option Int)
    (ha : ¬I.active = "off") (ht : I.device_tracker = some cfg.home_tag)
    (hcs : I.charging_state = some cs0)
    (h1 : strToLower cs0 = cfg.status_charging)
    (hv : (if I.tl > 0 ∧ I.cs_lc - I.tl_lc < 0
        then some (pyInt (I.tl * 3600)) else none) = v) :
    calculate cfg I st = start_stop_charging I ⟨st.status_state, v, st.reason⟩ := by
  simp only [calculate, hcs]
  rw [if_neg ha, if_neg (by simp [ht]), if_pos h1, hv]

/-- Helper: the complete branch of `calculate` (lines 435-443). -/
theorem calculate_complete_branch (cfg : Config) (I : CalcIn) (st : SessionState)
    (cs0 : String)
    (ha : ¬I.active = "off") (ht : I.device_tracker = some cfg.home_tag)
    (hcs : I.charging_state = some cs0)
    (h1 : ¬strToLower cs0 = cfg.status_charging)
    (h2 : strToLower cs0 = cfg.status_complete) :
    calculate cfg I st =
      CalcResult.ok ⟨"complete", none, "EV is charged"⟩ [Cmd.on] true := by
  simp only [calculate, hcs]
  rw [if_neg ha, if_neg (by simp [ht]), if_neg h1, if_pos h2]

/-- Helper: the failed-probe branch of `calculate` (lines 444-448): state
"stopped" while the previous status was "calculating" clears the need,
commands ON and leaves the status unchanged. -/
theorem calculate_probe_branch (cfg : Config) (I : CalcIn) (st : SessionState)
    (cs0 : String)
    (ha : ¬I.active = "off") (ht : I.device_tracker = some cfg.home_tag)
    (hcs : I.charging_state = some cs0)
    (h1 : ¬strToLower cs0 = cfg.status_charging)
    (h2 : ¬strToLower cs0 = cfg.status_complete)
    (h3 : strToLower cs0 = cfg.status_stopped)
    (h4 : st.status_state = "calculating") :
    calculate cfg I st =
      CalcResult.ok ⟨st.status_state, none, st.reason⟩ [Cmd.on] true := by
  simp only [calculate, hcs]
  rw [if_neg ha, if_neg (by simp [ht]), if_neg h1, if_neg h2, if_pos ⟨h3, h4⟩]

/-- Helper: the fall-through of `calculate` into `start_stop_charging` with
an unchanged session state. -/
theorem calculate_fallthrough (cfg : Config) (I : CalcIn) (st : SessionState)
    (cs0 : String)
    (ha : ¬I.active = "off") (ht : I.device_tracker = some cfg.home_tag)
    (hcs : I.charging_state = some cs0)
    (h1 : ¬strToLower cs0 = cfg.status_charging)
    (h2 : ¬strToLower cs0 = cfg.status_complete)
    (h3 : ¬(strToLower cs0 = cfg.status_stopped ∧ st.status_state = "calculating")) :
    calculate cfg I st = start_stop_charging I st := by
  simp only [calculate, hcs]
  rw [if_neg ha, if_neg (by simp [ht]), if_neg h1, if_neg h2, if_neg h3]

/-- Helper: whenever a `start_stop_charging` evaluation ends with status
"calculating", the attempted command was charging-ON. -/
theorem ssOut_calculating (I : CalcIn) (v : Option Int) (s rs : String)
    (c : List Cmd) (b : Bool)
    (h : ssOut I v = some (s, rs, c, b)) (hs : s = "calculating") :
    c = [Cmd.on] := by
  subst hs
  cases v with
  | none =>
    unfold ssOut at h
    by_cases hk : I.start_ok
    · rw [if_neg (by simp [hk])] at h
      simp only [Option.some.injEq, Prod.mk.injEq] at h
      exact h.2.2.1.symm
    · rw [if_pos (by simp [hk])] at h
      simp at h
  | some need =>
    unfold ssOut at h
    cases hp : I.price with
    | none =>
      rw [hp] at h
      dsimp only at h
      by_cases hk : I.stop_ok
      · rw [if_neg (by simp [hk])] at h
        simp at h
      · rw [if_pos (by simp [hk])] at h
        simp at h
    | some price =>
      rw [hp] at h
      cases price with
      | nil => exact Option.noConfusion h
      | cons c0 rest =>
        dsimp only at h
        by_cases hemp : (selectSlots need (c0 :: rest)).isEmpty
        · rw [if_pos hemp] at h
          simp at h
        · rw [if_neg hemp] at h
          cases hsort : List.insertionSort startLe (selectSlots need (c0 :: rest)) with
          | nil =>
            rw [hsort] at h
            exact Option.noConfusion h
          | cons s0 srest =>
            rw [hsort] at h
            dsimp only at h
            by_cases hin : s0.start < I.now ∧ I.now < s0.end_
            · rw [if_pos hin] at h
              simp at h
            · rw [if_neg hin] at h
              simp at h

/-- C9: evaluating the charge state machine twice with byte-identical
external inputs and no elapsed time produces an identical status, and the
second evaluation attempts the same charger command as the first or no
command at all. -/
theorem c9_idempotent (cfg : Config) (I : CalcIn) (s0 : SessionState) :
    (calculate cfg I ((calculate cfg I s0).stateOf)).statusOf =
      (calculate cfg I s0).statusOf ∧
    ((calculate cfg I ((calculate cfg I s0).stateOf)).cmdsOf =
        (calculate cfg I s0).cmdsOf ∨
      (calculate cfg I ((calculate cfg I s0).stateOf)).cmdsOf = []) := by
  by_cases ha : I.active = "off"
  · simp [calculate, ha, CalcResult.statusOf, CalcResult.stateOf, CalcResult.cmdsOf]
  · by_cases ht : I.device_tracker = some cfg.home_tag
    · cases hcs : I.charging_state with
      | none =>
        simp [calculate, ha, ht, hcs, CalcResult.statusOf, CalcResult.stateOf,
          CalcResult.cmdsOf]
      | some cs0 =>
        by_cases h1 : strToLower cs0 = cfg.status_charging
        · obtain ⟨v, hv⟩ : ∃ v, (if I.tl > 0 ∧ I.cs_lc - I.tl_lc < 0
              then some (pyInt (I.tl * 3600)) else none) = v := ⟨_, rfl⟩
          have E1 := calculate_charging_branch cfg I s0 cs0 v ha ht hcs h1 hv
          rw [start_stop_charging_eq] at E1
          dsimp only at E1
          cases hss : ssOut I v with
          | none =>
            rw [hss] at E1
            dsimp only at E1
            have E2 := calculate_charging_branch cfg I
              ⟨s0.status_state, v, s0.reason⟩ cs0 v ha ht hcs h1 hv
            rw [start_stop_charging_eq] at E2
            dsimp only at E2
            rw [hss] at E2
            dsimp only at E2
            rw [E1]
            dsimp only [CalcResult.stateOf]
            rw [E2]
            simp [CalcResult.statusOf, CalcResult.stateOf, CalcResult.cmdsOf]
          | some q =>
            obtain ⟨qs, qrs, qc, qb⟩ := q
            rw [hss] at E1
            dsimp only at E1
            have E2 := calculate_charging_branch cfg I
              ⟨qs, v, qrs⟩ cs0 v ha ht hcs h1 hv
            rw [start_stop_charging_eq] at E2
            dsimp only at E2
            rw [hss] at E2
            dsimp only at E2
            rw [E1]
            dsimp only [CalcResult.stateOf]
            rw [E2]
            simp [CalcResult.statusOf, CalcResult.stateOf, CalcResult.cmdsOf]
        · by_cases h2 : strToLower cs0 = cfg.status_complete
          · have E1 := calculate_complete_branch cfg I s0 cs0 ha ht hcs h1 h2
            have E2 := calculate_complete_branch cfg I
              ⟨"complete", none, "EV is charged"⟩ cs0 ha ht hcs h1 h2
            rw [E1]
            dsimp only [CalcResult.stateOf]
            rw [E2]
            simp [CalcResult.statusOf, CalcResult.stateOf, CalcResult.cmdsOf]
          · by_cases h3 : strToLower cs0 = cfg.status_stopped
            · by_cases h4 : s0.status_state = "calculating"
              · have E1 := calculate_probe_branch cfg I s0 cs0 ha ht hcs h1 h2 h3 h4
                have E2 := calculate_probe_branch cfg I
                  ⟨s0.status_state, none, s0.reason⟩ cs0 ha ht hcs h1 h2 h3 h4
                rw [E1]
                dsimp only [CalcResult.stateOf]
                rw [E2]
                simp [CalcResult.statusOf, CalcResult.stateOf, CalcResult.cmdsOf]
              · have E1 := calculate_fallthrough cfg I s0 cs0 ha ht hcs h1 h2
                  (fun hc => h4 hc.2)
                rw [start_stop_charging_eq] at E1
                cases hss : ssOut I s0.charge_time_needed with
                | none =>
                  rw [hss] at E1
                  dsimp only at E1
                  have E2 := calculate_fallthrough cfg I s0 cs0 ha ht hcs h1 h2
                    (fun hc => h4 hc.2)
                  rw [start_stop_charging_eq, hss] at E2
                  dsimp only at E2
                  rw [E1]
                  dsimp only [CalcResult.stateOf]
                  rw [E2]
                  simp [CalcResult.statusOf, CalcResult.stateOf, CalcResult.cmdsOf]
                | some q =>
                  obtain ⟨qs, qrs, qc, qb⟩ := q
                  rw [hss] at E1
                  dsimp only at E1
                  by_cases h5 : qs = "calculating"
                  · have E2 := calculate_probe_branch cfg I
                      ⟨qs, s0.charge_time_needed, qrs⟩ cs0 ha ht hcs h1 h2 h3 h5
                    rw [E1]
                    dsimp only [CalcResult.stateOf]
                    rw [E2]
                    have hc := ssOut_calculating I s0.charge_time_needed qs qrs qc qb
                      hss h5
                    subst hc
                    simp [CalcResult.statusOf, CalcResult.stateOf, CalcResult.cmdsOf]
                  · have E2 := calculate_fallthrough cfg I
                      ⟨qs, s0.charge_time_needed, qrs⟩ cs0 ha ht hcs h1 h2
                      (fun hc => h5 hc.2)
                    rw [start_stop_charging_eq] at E2
                    dsimp only at E2
                    rw [hss] at E2
                    dsimp only at E2
                    rw [E1]
                    dsimp only [CalcResult.stateOf]
                    rw [E2]
                    simp [CalcResult.statusOf, CalcResult.stateOf, CalcResult.cmdsOf]
            · have E1 := calculate_fallthrough cfg I s0 cs0 ha ht hcs h1 h2
                (fun hc => h3 hc.1)
              rw [start_stop_charging_eq] at E1
              cases hss : ssOut I s0.charge_time_needed with
              | none =>
                rw [hss] at E1
                dsimp only at E1
                have E2 := calculate_fallthrough cfg I s0 cs0 ha ht hcs h1 h2
                  (fun hc => h3 hc.1)
                rw [start_stop_charging_eq, hss] at E2
                dsimp only at E2
                rw [E1]
                dsimp only [CalcResult.stateOf]
                rw [E2]
                simp [CalcResult.statusOf, CalcResult.stateOf, CalcResult.cmdsOf]
              | some q =>
                obtain ⟨qs, qrs, qc, qb⟩ := q
                rw [hss] at E1
                dsimp only at E1
                have E2 := calculate_fallthrough cfg I
                  ⟨qs, s0.charge_time_needed, qrs⟩ cs0 ha ht hcs h1 h2
                  (fun hc => h3 hc.1)
                rw [start_stop_charging_eq] at E2
                dsimp only at E2
                rw [hss] at E2
                dsimp only at E2
                rw [E1]
                dsimp only [CalcResult.stateOf]
                rw [E2]
                simp [CalcResult.statusOf, CalcResult.stateOf, CalcResult.cmdsOf]
    · simp [calculate, ha, ht, CalcResult.statusOf, CalcResult.stateOf,
        CalcResult.cmdsOf]
